import Mathlib

/-!
Shallow embedding of `src/auto_commit.py` (repository jdalmasso/autocommit).

Modelling conventions:
* Timestamps are integers (seconds from local midnight of the current day in
  the fixed timezone).  The Python code renders them as ISO-8601 strings and
  sorts those strings; for timestamps of one day in one UTC offset the
  lexicographic order of the ISO strings coincides with the numeric order of
  the underlying instants, so sorting integers is the faithful image of
  `sorted(...)` on the ISO strings.  `List.insertionSort (· ≤ ·)` is used for
  Python's `sorted`: on integers every sorted permutation of a list is unique,
  so any correct sort denotes the same function.
* Working-hours boundaries are minutes from midnight, the image of the
  `"HH:MM"` strings parsed by `strptime` (so the second count of the window is
  an exact multiple of 60 and Python's `int(...)` truncation is exact).
* The pseudo-random stream of the `random` module is an explicit parameter:
  a function `g : Nat → Nat` supplies the raw draws, and
  `random.randint(lo, hi)` becomes `randint lo hi r = lo + r % (hi - lo + 1)`
  when `lo ≤ hi` (always a value in `[lo, hi]`) and a raised `ValueError`
  (`none`) when `hi < lo`, exactly as in CPython.
* The filesystem is an explicit state `St`; exceptions of the git collaborator
  are parameters `commitErr`, `pushErr : Option String` (`some e` means the
  underlying call raises with message `e`).
-/

/-- CPython `random.randint lo hi`: raises `ValueError` (modelled `none`) when
`hi < lo`, otherwise returns a value in `[lo, hi]`; the raw draw `r` is taken
from the explicit random stream. -/
def randint (lo hi : Int) (r : Nat) : Option Int :=
  if hi < lo then none else some (lo + (r : Int) % (hi - lo + 1))

/-- The loop body of `select_commit_times`: `num` draws of
`start_time + timedelta(seconds=random.randint(0, int(delta)))`, in list form
(the draw of index `n` uses stream position `n`). -/
def drawTimes (startS delta : Int) (g : Nat → Nat) : Nat → Option (List Int)
  | 0 => some []
  | n + 1 =>
    match randint 0 delta (g n), drawTimes startS delta g n with
    | some off, some rest => some ((startS + off) :: rest)
    | _, _ => none

/-- `select_commit_times(working_hours, num_commits)` of `auto_commit.py`,
lines 36-49: `delta = (end_time - start_time).total_seconds()`, then
`num_commits` draws of `start_time + random.randint(0, int(delta))` seconds,
returned sorted ascending.  Window boundaries `startM`, `endM` are minutes
from midnight; the result is `none` when the Python loop raises (empty
`randint` range). -/
def select_commit_times (startM endM num : Nat) (g : Nat → Nat) : Option (List Int) :=
  let startS : Int := (startM : Int) * 60
  let delta : Int := ((endM : Int) - (startM : Int)) * 60
  (drawTimes startS delta g num).map (List.insertionSort (· ≤ ·))

lemma randint_mem (lo hi : Int) (r : Nat) (h : lo ≤ hi) :
    ∃ v, randint lo hi r = some v ∧ lo ≤ v ∧ v ≤ hi := by
  refine ⟨lo + (r : Int) % (hi - lo + 1), ?_, ?_, ?_⟩
  · simp [randint, not_lt.mpr h]
  · have hpos : (0 : Int) < hi - lo + 1 := by omega
    have := Int.emod_nonneg (r : Int) (by omega : hi - lo + 1 ≠ 0)
    omega
  · have hpos : (0 : Int) < hi - lo + 1 := by omega
    have := Int.emod_lt_of_pos (r : Int) hpos
    omega

lemma drawTimes_ok (startS delta : Int) (g : Nat → Nat) (hd : 0 ≤ delta) :
    ∀ num, ∃ l, drawTimes startS delta g num = some l ∧
      l.length = num ∧ ∀ t ∈ l, startS ≤ t ∧ t ≤ startS + delta := by
  intro num
  induction num with
  | zero => exact ⟨[], rfl, rfl, by simp⟩
  | succ n ih =>
    obtain ⟨l, hl, hlen, hmem⟩ := ih
    obtain ⟨v, hv, hv0, hv1⟩ := randint_mem 0 delta (g n) hd
    refine ⟨(startS + v) :: l, ?_, by simp [hlen], ?_⟩
    · simp [drawTimes, hv, hl]
    · intro t ht
      rcases List.mem_cons.mp ht with h | h
      · subst h; omega
      · exact hmem t h

/-- C3: for a window with `windowEnd > windowStart` and any commit count, the
scheduler succeeds and every produced timestamp lies within
`[windowStart, windowEnd]` (in seconds of the day), the list is sorted
ascending, and it has exactly `num` entries. -/
theorem select_commit_times_in_window (startM endM num : Nat) (g : Nat → Nat)
    (hwin : startM < endM) (hnum : 1 ≤ num) :
    ∃ l, select_commit_times startM endM num g = some l ∧
      l.Sorted (· ≤ ·) ∧ l.length = num ∧
      ∀ t ∈ l, (startM : Int) * 60 ≤ t ∧ t ≤ (endM : Int) * 60 := by
  have hd : (0 : Int) ≤ ((endM : Int) - (startM : Int)) * 60 := by
    have : (startM : Int) < (endM : Int) := by exact_mod_cast hwin
    nlinarith
  obtain ⟨l, hl, hlen, hmem⟩ :=
    drawTimes_ok ((startM : Int) * 60) (((endM : Int) - (startM : Int)) * 60) g hd num
  refine ⟨l.insertionSort (· ≤ ·), ?_, ?_, ?_, ?_⟩
  · simp [select_commit_times, hl]
  · exact List.sorted_insertionSort _ l
  · simpa [List.length_insertionSort] using hlen
  · intro t ht
    have ht' : t ∈ l := (List.mem_insertionSort _).mp ht
    have := hmem t ht'
    constructor <;> omega

/-- C3 witness. -/
theorem select_commit_times_in_window_witness :
    (540 : Nat) < 1140 ∧ (1 : Nat) ≤ 2 ∧
    ∃ l, select_commit_times 540 1140 2 (fun _ => 7) = some l ∧
      l.Sorted (· ≤ ·) ∧ l.length = 2 ∧
      ∀ t ∈ l, (540 : Int) * 60 ≤ t ∧ t ≤ (1140 : Int) * 60 :=
  ⟨by decide, by decide,
    select_commit_times_in_window 540 1140 2 (fun _ => 7) (by decide) (by decide)⟩

/-- C4 counterexample: the window `09:00-09:00` has `windowEnd ≤ windowStart`,
yet the scheduler succeeds (the `randint(0, 0)` range is not empty) and
returns the timestamp `09:00` itself; the code fails only for
`windowEnd < windowStart`. -/
theorem select_commit_times_equal_window_succeeds :
    (540 : Nat) ≤ 540 ∧
      select_commit_times 540 540 1 (fun _ => 0) = some [32400] := by
  constructor
  · decide
  · rfl

/-- C4 amended: the scheduler fails (the empty-range `ValueError` of
`random.randint`, the code's image of `InvalidWindow`) exactly when
`windowEnd < windowStart` and at least one timestamp is drawn; a window with
`windowEnd = windowStart` succeeds, every draw landing on `windowStart`. -/
theorem select_commit_times_fails_iff (startM endM num : Nat) (g : Nat → Nat) :
    select_commit_times startM endM num g = none ↔ (endM < startM ∧ 1 ≤ num) := by
  constructor
  · intro hnone
    by_contra hcon
    rw [not_and_or] at hcon
    rcases hcon with h | h
    · have hle : startM ≤ endM := not_lt.mp h
      have hd : (0 : Int) ≤ ((endM : Int) - (startM : Int)) * 60 := by
        have : (startM : Int) ≤ (endM : Int) := by exact_mod_cast hle
        nlinarith
      obtain ⟨l, hl, -, -⟩ :=
        drawTimes_ok ((startM : Int) * 60) (((endM : Int) - (startM : Int)) * 60) g hd num
      simp [select_commit_times, hl] at hnone
    · have hz : num = 0 := by omega
      subst hz
      simp [select_commit_times, drawTimes] at hnone
  · rintro ⟨hlt, hnum⟩
    obtain ⟨m, rfl⟩ := Nat.exists_eq_add_of_le hnum
    have hneg : (((endM : Int) - (startM : Int)) * 60) < 0 := by
      have : (endM : Int) < (startM : Int) := by exact_mod_cast hlt
      nlinarith
    simp only [select_commit_times, Nat.add_comm 1 m, drawTimes, randint, if_pos hneg]
    rfl

/-- Filesystem-and-effects state of one invocation.  `counterFile` and
`scheduleFile` are the parsed contents of `counter.txt` and
`commit_times.json` (`none` = file absent); `commits` records the messages of
the git commits executed so far and `pushes` the successful pushes. -/
structure St where
  counterFile : Option Int
  scheduleFile : Option (List Int)
  infoLog : List String
  errorLog : List String
  commits : List String
  pushes : Nat
deriving DecidableEq

/-- Value read from the counter file: the code first creates the file with
content `"0"` when it is absent, then reads it. -/
def counterVal (c : Option Int) : Int := c.getD 0

/-- The increment `random.randint(1, 100)` produces from the raw draw `r`. -/
def incOf (r : Nat) : Int := 1 + (r : Int) % 100

/-- `update_counter()` of `auto_commit.py`, lines 63-78: create the file with
`0` if absent, read it, add `random.randint(1, 100)`, write the sum back, and
return `(before, after)`. -/
def update_counter (r : Nat) (st : St) : (Int × Int) × St :=
  let before := counterVal st.counterFile
  let after := before + incOf r
  ((before, after), { st with counterFile := some after })

/-- N successive calls of `update_counter`, consuming one raw draw per call. -/
def bumpN : List Nat → St → St
  | [], st => st
  | r :: rs, st => bumpN rs (update_counter r st).2

/-- The commit message built in `make_commit`. -/
def commitMsg (b a : Int) : String :=
  "Updated counter from " ++ toString b ++ " to " ++ toString a

/-- `make_commit(repo, before, after)`, lines 80-89: stage, commit, return the
message; on a git error append `Commit failed: e` to the error log and
re-raise.  `gitErr` is the collaborator's outcome (`some e` = the git call
raises `e`). -/
def make_commit (gitErr : Option String) (b a : Int) (st : St) :
    St × Except String String :=
  match gitErr with
  | none =>
    let msg := commitMsg b a
    ({ st with commits := st.commits ++ [msg] }, Except.ok msg)
  | some e =>
    ({ st with errorLog := st.errorLog ++ ["Commit failed: " ++ e] }, Except.error e)

/-- `push_changes(repo)`, lines 91-97: push; on a git error append
`Push failed: e` to the error log and re-raise. -/
def push_changes (gitErr : Option String) (st : St) : St × Except String Unit :=
  match gitErr with
  | none => ({ st with pushes := st.pushes + 1 }, Except.ok ())
  | some e =>
    ({ st with errorLog := st.errorLog ++ ["Push failed: " ++ e] }, Except.error e)

/-- The day-setup computation of `main`, lines 110-112: hardcoded windows
`09:00-19:00` (Mon-Sat, `weekday < 6`) and `11:00-16:00` (Sunday), commit
count `1` on Sunday and `random.randint(1, 10)` otherwise. -/
def setupSchedule (weekday : Nat) (gNum gOff : Nat → Nat) : Option (List Int) :=
  let wh : Nat × Nat := if weekday < 6 then (540, 1140) else (660, 960)
  let num : Nat := if weekday == 6 then 1 else (1 + gNum 0 % 10)
  select_commit_times wh.1 wh.2 num gOff

/-- The `main()` function of `auto_commit.py`, lines 99-132, as a state transformer (named `mainRun` because `main` is reserved for entry points).  The
ambient inputs are the clock `now`, the weekday, the random stream (split into
the commit-count draws `gNum`, the offset draws `gOff` and the increment draws
`gInc`), and the outcomes of the two git calls.  The outer `try/except`
appends `Script error: e` to the error log for any exception reaching it. -/
def mainRun (now : Int) (weekday : Nat) (gNum gOff gInc : Nat → Nat)
    (commitErr pushErr : Option String) (st : St) : St :=
  match st.scheduleFile.getD [] with
  | [] =>
    match setupSchedule weekday gNum gOff with
    | some ts =>
      { st with scheduleFile := some ts,
                infoLog := st.infoLog ++ ["Commit times for the day"] }
    | none => { st with errorLog := st.errorLog ++ ["Script error: randint"] }
  | t1 :: rest =>
    if t1 ≤ now then
      match update_counter (gInc 0) st with
      | ((b, a), st1) =>
        match make_commit commitErr b a st1 with
        | (st2, Except.error e) =>
          { st2 with errorLog := st2.errorLog ++ ["Script error: " ++ e] }
        | (st2, Except.ok msg) =>
          match push_changes pushErr st2 with
          | (st3, Except.error e) =>
            { st3 with errorLog := st3.errorLog ++ ["Script error: " ++ e] }
          | (st3, Except.ok _) =>
            { st3 with infoLog := st3.infoLog ++ ["Commit executed: " ++ msg],
                       scheduleFile := some rest }
    else st

/-- Module-level startup, lines 14-16: `os.getenv("REPO_PATH")` and the
falsiness check, raising `ValueError` before anything else runs. -/
def startup (env : Option String) : Except String String :=
  match env with
  | none => Except.error "REPO_PATH not set in .env file"
  | some p =>
    if p = "" then Except.error "REPO_PATH not set in .env file" else Except.ok p

/-- A whole process run: module import (startup check) followed by `main`.
On a configuration error the state is returned untouched together with the
error message. -/
def program (env : Option String) (now : Int) (weekday : Nat)
    (gNum gOff gInc : Nat → Nat) (commitErr pushErr : Option String)
    (st : St) : St × Option String :=
  match startup env with
  | Except.error e => (st, some e)
  | Except.ok _ => (mainRun now weekday gNum gOff gInc commitErr pushErr st, none)

lemma incOf_bounds (r : Nat) : 1 ≤ incOf r ∧ incOf r ≤ 100 := by
  have h0 := Int.emod_nonneg (r : Int) (by omega : (100 : Int) ≠ 0)
  have h1 := Int.emod_lt_of_pos (r : Int) (by omega : (0 : Int) < 100)
  unfold incOf
  omega

lemma select_ok (startM endM num : Nat) (g : Nat → Nat) (h : startM ≤ endM) :
    ∃ l, select_commit_times startM endM num g = some l ∧ l.length = num ∧
      ∀ t ∈ l, (startM : Int) * 60 ≤ t ∧ t ≤ (endM : Int) * 60 := by
  have hd : (0 : Int) ≤ ((endM : Int) - (startM : Int)) * 60 := by
    have : (startM : Int) ≤ (endM : Int) := by exact_mod_cast h
    nlinarith
  obtain ⟨l, hl, hlen, hmem⟩ :=
    drawTimes_ok ((startM : Int) * 60) (((endM : Int) - (startM : Int)) * 60) g hd num
  refine ⟨l.insertionSort (· ≤ ·), by simp [select_commit_times, hl], ?_, ?_⟩
  · simpa [List.length_insertionSort] using hlen
  · intro t ht
    have := hmem t ((List.mem_insertionSort _).mp ht)
    constructor <;> omega

lemma setupSchedule_ok (weekday : Nat) (gNum gOff : Nat → Nat) :
    ∃ ts, setupSchedule weekday gNum gOff = some ts ∧ 1 ≤ ts.length := by
  by_cases h6 : weekday < 6
  · have hne : (weekday == 6) = false := beq_eq_false_iff_ne.mpr (by omega)
    obtain ⟨l, hl, hlen, -⟩ :=
      select_ok 540 1140 (1 + gNum 0 % 10) gOff (by omega)
    exact ⟨l, by simp [setupSchedule, h6, hne, hl], by omega⟩
  · by_cases heq : weekday = 6
    · obtain ⟨l, hl, hlen, -⟩ := select_ok 660 960 1 gOff (by omega)
      refine ⟨l, ?_, by omega⟩
      subst heq
      exact hl
    · have hne : (weekday == 6) = false := beq_eq_false_iff_ne.mpr (by omega)
      obtain ⟨l, hl, hlen, -⟩ :=
        select_ok 660 960 (1 + gNum 0 % 10) gOff (by omega)
      exact ⟨l, by simp [setupSchedule, h6, hne, hl], by omega⟩

/-- C5: on the restricted day (Sunday, `weekday = 6`) the generated schedule
has length exactly one and its single timestamp lies inside the restricted
window `11:00-16:00` (`[39600, 57600]` in seconds), whatever the random
stream; the caller never reaches the wider window or the multi-commit draw on
that day. -/
theorem setupSchedule_sunday (gNum gOff : Nat → Nat) :
    ∃ t, setupSchedule 6 gNum gOff = some [t] ∧
      (39600 : Int) ≤ t ∧ t ≤ 57600 := by
  obtain ⟨l, hl, hlen, hmem⟩ := select_ok 660 960 1 gOff (by omega)
  obtain ⟨t, rfl⟩ := List.length_eq_one.mp hlen
  have hb := hmem t (by simp)
  refine ⟨t, ?_, by omega, by omega⟩
  exact hl

/-- C6: one `update_counter` call returns `(before, after)` with
`after = before + inc` for an increment `inc ∈ [1, 100]`, reads `before = 0`
when the counter file is absent, writes `after` back, and is strictly
increasing; `N` successive calls add exactly the sum of their `N` increments
to the stored value, so the counter is never decremented. -/
theorem update_counter_sums (r : Nat) (rs : List Nat) (st : St) :
    (update_counter r st).1.1 = counterVal st.counterFile ∧
    (st.counterFile = none → (update_counter r st).1.1 = 0) ∧
    (update_counter r st).1.2 = (update_counter r st).1.1 + incOf r ∧
    1 ≤ incOf r ∧ incOf r ≤ 100 ∧
    (update_counter r st).2.counterFile = some (update_counter r st).1.2 ∧
    (update_counter r st).1.1 < (update_counter r st).1.2 ∧
    counterVal (bumpN rs st).counterFile
      = counterVal st.counterFile + (rs.map incOf).sum ∧
    counterVal st.counterFile ≤ counterVal (bumpN rs st).counterFile := by
  obtain ⟨hi1, hi2⟩ := incOf_bounds r
  have hsum : ∀ l (s : St), counterVal (bumpN l s).counterFile
      = counterVal s.counterFile + (l.map incOf).sum := by
    intro l
    induction l with
    | nil => intro s; simp [bumpN]
    | cons a l ih =>
      intro s
      have h2 := ih (update_counter a s).2
      have hcv : counterVal (update_counter a s).2.counterFile
          = counterVal s.counterFile + incOf a := by
        simp [update_counter, counterVal]
      simp only [bumpN, List.map_cons, List.sum_cons]
      rw [h2, hcv]
      ring
  have hnonneg : (0 : Int) ≤ (rs.map incOf).sum := by
    apply List.sum_nonneg
    intro x hx
    obtain ⟨r', -, rfl⟩ := List.mem_map.mp hx
    have := incOf_bounds r'
    omega
  refine ⟨rfl, ?_, rfl, hi1, hi2, rfl, ?_, hsum rs st, ?_⟩
  · intro h; simp [update_counter, counterVal, h]
  · simp only [update_counter]; omega
  · rw [hsum rs st]; omega

/-- C1: when the loaded schedule is `T1 :: rest` and `now ≥ T1` (and the git
collaborator raises nothing), the invocation executes exactly one commit whose
message is `Updated counter from before to after`, advances the counter by an
increment in `[1, 100]`, pops `T1` and persists the remainder; for the
singleton schedule `[T1]` the persisted schedule becomes empty. -/
theorem mainRun_due_executes_one_commit (now : Int) (weekday : Nat)
    (gNum gOff gInc : Nat → Nat) (st : St) (t1 : Int) (rest : List Int)
    (hs : st.scheduleFile = some (t1 :: rest)) (hnow : t1 ≤ now) :
    1 ≤ incOf (gInc 0) ∧ incOf (gInc 0) ≤ 100 ∧
    (mainRun now weekday gNum gOff gInc none none st).commits
      = st.commits ++ [commitMsg (counterVal st.counterFile)
          (counterVal st.counterFile + incOf (gInc 0))] ∧
    (mainRun now weekday gNum gOff gInc none none st).counterFile
      = some (counterVal st.counterFile + incOf (gInc 0)) ∧
    (mainRun now weekday gNum gOff gInc none none st).scheduleFile = some rest ∧
    (rest = [] →
      (mainRun now weekday gNum gOff gInc none none st).scheduleFile = some []) := by
  obtain ⟨h1, h2⟩ := incOf_bounds (gInc 0)
  refine ⟨h1, h2, ?_, ?_, ?_, ?_⟩ <;>
    simp [mainRun, hs, hnow, update_counter, make_commit, push_changes]

/-- C1 witness. -/
theorem mainRun_due_executes_one_commit_witness :
    (St.mk (some 0) (some [5]) [] [] [] 0).scheduleFile = some ((5 : Int) :: []) ∧
    (5 : Int) ≤ 10 ∧
    (1 ≤ incOf ((fun _ => 0) 0) ∧ incOf ((fun _ => 0) 0) ≤ 100 ∧
    (mainRun 10 0 (fun _ => 0) (fun _ => 0) (fun _ => 0) none none
        (St.mk (some 0) (some [5]) [] [] [] 0)).commits
      = (St.mk (some 0) (some [5]) [] [] [] 0).commits ++
          [commitMsg (counterVal (St.mk (some 0) (some [5]) [] [] [] 0).counterFile)
            (counterVal (St.mk (some 0) (some [5]) [] [] [] 0).counterFile
              + incOf ((fun _ => 0) 0))] ∧
    (mainRun 10 0 (fun _ => 0) (fun _ => 0) (fun _ => 0) none none
        (St.mk (some 0) (some [5]) [] [] [] 0)).counterFile
      = some (counterVal (St.mk (some 0) (some [5]) [] [] [] 0).counterFile
          + incOf ((fun _ => 0) 0)) ∧
    (mainRun 10 0 (fun _ => 0) (fun _ => 0) (fun _ => 0) none none
        (St.mk (some 0) (some [5]) [] [] [] 0)).scheduleFile = some [] ∧
    (([] : List Int) = [] →
      (mainRun 10 0 (fun _ => 0) (fun _ => 0) (fun _ => 0) none none
        (St.mk (some 0) (some [5]) [] [] [] 0)).scheduleFile = some [])) :=
  ⟨rfl, by decide,
    mainRun_due_executes_one_commit 10 0 (fun _ => 0) (fun _ => 0) (fun _ => 0)
      (St.mk (some 0) (some [5]) [] [] [] 0) 5 [] rfl (by decide)⟩

/-- C2: when the loaded schedule is non-empty and `now < T1`, the invocation
is a complete no-op: the state (schedule file, counter file, logs, commits,
pushes) is returned unchanged, whatever the git collaborator would have
done. -/
theorem mainRun_not_due_noop (now : Int) (weekday : Nat)
    (gNum gOff gInc : Nat → Nat) (commitErr pushErr : Option String)
    (st : St) (t1 : Int) (rest : List Int)
    (hs : st.scheduleFile = some (t1 :: rest)) (hnow : now < t1) :
    mainRun now weekday gNum gOff gInc commitErr pushErr st = st := by
  have h : ¬ t1 ≤ now := not_le.mpr hnow
  simp [mainRun, hs, h]

/-- C2 witness. -/
theorem mainRun_not_due_noop_witness :
    (St.mk none (some [5, 9]) [] [] [] 0).scheduleFile = some ((5 : Int) :: [9]) ∧
    (3 : Int) < 5 ∧
    mainRun 3 2 (fun _ => 1) (fun _ => 2) (fun _ => 3) (some "x") none
        (St.mk none (some [5, 9]) [] [] [] 0)
      = St.mk none (some [5, 9]) [] [] [] 0 :=
  ⟨rfl, by decide,
    mainRun_not_due_noop 3 2 (fun _ => 1) (fun _ => 2) (fun _ => 3) (some "x") none
      (St.mk none (some [5, 9]) [] [] [] 0) 5 [9] rfl (by decide)⟩

/-- C7: when the schedule is due and the git commit or the push raises, the
failure is appended to the error log at the call site and the re-raised
exception is logged again by the outer handler; the invocation aborts without
popping the schedule (the schedule file is unchanged) while the counter file
already holds the bumped value. -/
theorem mainRun_git_failure_aborts (now : Int) (weekday : Nat)
    (gNum gOff gInc : Nat → Nat) (commitErr pushErr : Option String)
    (st : St) (t1 : Int) (rest : List Int)
    (hs : st.scheduleFile = some (t1 :: rest)) (hnow : t1 ≤ now)
    (hfail : commitErr ≠ none ∨ pushErr ≠ none) :
    (mainRun now weekday gNum gOff gInc commitErr pushErr st).scheduleFile
      = st.scheduleFile ∧
    (mainRun now weekday gNum gOff gInc commitErr pushErr st).counterFile
      = some (counterVal st.counterFile + incOf (gInc 0)) ∧
    ∃ e, (mainRun now weekday gNum gOff gInc commitErr pushErr st).errorLog
        = st.errorLog ++ ["Commit failed: " ++ e, "Script error: " ++ e] ∨
      (mainRun now weekday gNum gOff gInc commitErr pushErr st).errorLog
        = st.errorLog ++ ["Push failed: " ++ e, "Script error: " ++ e] := by
  cases commitErr with
  | some e =>
    refine ⟨?_, ?_, ⟨e, Or.inl ?_⟩⟩ <;>
      simp [mainRun, hs, hnow, update_counter, make_commit]
  | none =>
    cases pushErr with
    | none => simp at hfail
    | some e =>
      refine ⟨?_, ?_, ⟨e, Or.inr ?_⟩⟩ <;>
        simp [mainRun, hs, hnow, update_counter, make_commit, push_changes]

/-- C7 witness. -/
theorem mainRun_git_failure_aborts_witness :
    (St.mk (some 7) (some [5]) [] [] [] 0).scheduleFile = some ((5 : Int) :: []) ∧
    (5 : Int) ≤ 6 ∧ (some "boom" ≠ (none : Option String) ∨
      (none : Option String) ≠ none) ∧
    ((mainRun 6 0 (fun _ => 0) (fun _ => 0) (fun _ => 0) (some "boom") none
        (St.mk (some 7) (some [5]) [] [] [] 0)).scheduleFile
      = (St.mk (some 7) (some [5]) [] [] [] 0).scheduleFile ∧
    (mainRun 6 0 (fun _ => 0) (fun _ => 0) (fun _ => 0) (some "boom") none
        (St.mk (some 7) (some [5]) [] [] [] 0)).counterFile
      = some (counterVal (St.mk (some 7) (some [5]) [] [] [] 0).counterFile
          + incOf ((fun _ => 0) 0)) ∧
    ∃ e, (mainRun 6 0 (fun _ => 0) (fun _ => 0) (fun _ => 0) (some "boom") none
        (St.mk (some 7) (some [5]) [] [] [] 0)).errorLog
        = (St.mk (some 7) (some [5]) [] [] [] 0).errorLog ++
            ["Commit failed: " ++ e, "Script error: " ++ e] ∨
      (mainRun 6 0 (fun _ => 0) (fun _ => 0) (fun _ => 0) (some "boom") none
        (St.mk (some 7) (some [5]) [] [] [] 0)).errorLog
        = (St.mk (some 7) (some [5]) [] [] [] 0).errorLog ++
            ["Push failed: " ++ e, "Script error: " ++ e]) :=
  ⟨rfl, by decide, Or.inl (by decide),
    mainRun_git_failure_aborts 6 0 (fun _ => 0) (fun _ => 0) (fun _ => 0)
      (some "boom") none (St.mk (some 7) (some [5]) [] [] [] 0) 5 []
      rfl (by decide) (Or.inl (by decide))⟩

/-- C9: with the environment variable `REPO_PATH` unset the process raises the
configuration `ValueError` at import time and performs no work at all: the
state is returned untouched, so no schedule is generated, no counter is
updated and no commit is executed. -/
theorem program_unset_env_fails_fast (now : Int) (weekday : Nat)
    (gNum gOff gInc : Nat → Nat) (commitErr pushErr : Option String) (st : St) :
    program none now weekday gNum gOff gInc commitErr pushErr st
      = (st, some "REPO_PATH not set in .env file") := rfl

/-- C10: when the loaded schedule is empty (file absent or containing the
empty list), the invocation only generates and persists a fresh non-empty
schedule: no commit is executed, nothing is pushed and the counter file is
untouched — with no condition on `now`, so even when the earliest generated
timestamp is already due. -/
theorem mainRun_empty_schedule_setup_only (now : Int) (weekday : Nat)
    (gNum gOff gInc : Nat → Nat) (commitErr pushErr : Option String) (st : St)
    (hs : st.scheduleFile = none ∨ st.scheduleFile = some []) :
    ∃ ts, setupSchedule weekday gNum gOff = some ts ∧ 1 ≤ ts.length ∧
      (mainRun now weekday gNum gOff gInc commitErr pushErr st).scheduleFile
        = some ts ∧
      (mainRun now weekday gNum gOff gInc commitErr pushErr st).commits
        = st.commits ∧
      (mainRun now weekday gNum gOff gInc commitErr pushErr st).counterFile
        = st.counterFile ∧
      (mainRun now weekday gNum gOff gInc commitErr pushErr st).pushes
        = st.pushes := by
  obtain ⟨ts, hts, hlen⟩ := setupSchedule_ok weekday gNum gOff
  refine ⟨ts, hts, hlen, ?_, ?_, ?_, ?_⟩ <;>
    rcases hs with h | h <;> simp [mainRun, h, hts]

/-- C10 witness. -/
theorem mainRun_empty_schedule_setup_only_witness :
    ((St.mk (some 3) none [] [] [] 0).scheduleFile = none ∨
      (St.mk (some 3) none [] [] [] 0).scheduleFile = some []) ∧
    ∃ ts, setupSchedule 0 (fun _ => 0) (fun _ => 0) = some ts ∧ 1 ≤ ts.length ∧
      (mainRun 1000000 0 (fun _ => 0) (fun _ => 0) (fun _ => 0) none none
          (St.mk (some 3) none [] [] [] 0)).scheduleFile = some ts ∧
      (mainRun 1000000 0 (fun _ => 0) (fun _ => 0) (fun _ => 0) none none
          (St.mk (some 3) none [] [] [] 0)).commits
        = (St.mk (some 3) none [] [] [] 0).commits ∧
      (mainRun 1000000 0 (fun _ => 0) (fun _ => 0) (fun _ => 0) none none
          (St.mk (some 3) none [] [] [] 0)).counterFile
        = (St.mk (some 3) none [] [] [] 0).counterFile ∧
      (mainRun 1000000 0 (fun _ => 0) (fun _ => 0) (fun _ => 0) none none
          (St.mk (some 3) none [] [] [] 0)).pushes
        = (St.mk (some 3) none [] [] [] 0).pushes :=
  ⟨Or.inl rfl,
    mainRun_empty_schedule_setup_only 1000000 0 (fun _ => 0) (fun _ => 0)
      (fun _ => 0) none none (St.mk (some 3) none [] [] [] 0) (Or.inl rfl)⟩

/-- JSON rendering of one string item (for strings without characters that
`json.dump` would escape, which covers the ISO-8601 timestamps the program
stores): opening quote, the characters, closing quote. -/
def encodeStr (s : List Char) : List Char := '\"' :: s ++ ['\"']

/-- Body of the JSON array: the items joined by `json.dump`'s default
item separator `", "`. -/
def encodeItems : List (List Char) → List Char
  | [] => []
  | [s] => encodeStr s
  | s :: s2 :: ss => encodeStr s ++ ',' :: ' ' :: encodeItems (s2 :: ss)

/-- `json.dump` of a list of strings, as raw file characters. -/
def encodeJson (l : List (List Char)) : List Char := '[' :: encodeItems l ++ [']']

/-- Parse one JSON string body up to its closing quote, returning the string
and the remaining input. -/
def parseStr : List Char → Option (List Char × List Char)
  | [] => none
  | c :: rest =>
    if c = '\"' then some ([], rest)
    else (parseStr rest).map (fun p => (c :: p.1, p.2))

/-- Parse the items of a non-empty JSON array of strings up to the closing
bracket; `fuel` bounds the number of items (the input length suffices). -/
def parseItems : Nat → List Char → Option (List (List Char))
  | 0, _ => none
  | _ + 1, [] => none
  | fuel + 1, c :: rest =>
    if c = '\"' then
      match parseStr rest with
      | none => none
      | some (s, r) =>
        match r with
        | [] => none
        | c2 :: r2 =>
          if c2 = ']' then (if r2 = [] then some [s] else none)
          else if c2 = ',' then
            match r2 with
            | [] => none
            | c3 :: r3 =>
              if c3 = ' ' then (parseItems fuel r3).map (fun l => s :: l)
              else none
          else none
    else none

/-- `json.load` of a JSON array of strings (`none` = `JSONDecodeError`). -/
def decodeJson (cs : List Char) : Option (List (List Char)) :=
  match cs with
  | '[' :: rest => if rest = [']'] then some [] else parseItems cs.length rest
  | _ => none

/-- `save_commit_times(commit_times)`, lines 51-54: overwrite
`commit_times.json` with the `json.dump` of the list; the result is the new
file content. -/
def save_commit_times (ts : List (List Char)) : Option (List Char) :=
  some (encodeJson ts)

/-- `load_commit_times()`, lines 56-61: the empty list when the file is
absent, otherwise `json.load` of the file content. -/
def load_commit_times (file : Option (List Char)) : Option (List (List Char)) :=
  match file with
  | none => some []
  | some cs => decodeJson cs

lemma parseStr_complete (s r : List Char) (h : '\"' ∉ s) :
    parseStr (s ++ '\"' :: r) = some (s, r) := by
  induction s with
  | nil => simp [parseStr]
  | cons c cs ih =>
    rw [List.mem_cons, not_or] at h
    obtain ⟨h1, h2⟩ := h
    have hc : ¬ c = '\"' := fun he => h1 he.symm
    simp [parseStr, hc, ih h2]

lemma encodeItems_length (l : List (List Char)) : l.length ≤ (encodeItems l).length := by
  induction l with
  | nil => simp [encodeItems]
  | cons s ss ih =>
    cases ss with
    | nil => simp [encodeItems, encodeStr]
    | cons s2 ss2 =>
      simp only [encodeItems, encodeStr] at ih ⊢
      simp only [List.length_cons, List.length_append, List.length_cons] at ih ⊢
      omega

lemma parseItems_complete (l : List (List Char)) :
    ∀ fuel : Nat, l ≠ [] → l.length ≤ fuel → (∀ s ∈ l, '\"' ∉ s) →
      parseItems fuel (encodeItems l ++ [']']) = some l := by
  induction l with
  | nil => intro fuel h; exact absurd rfl h
  | cons s ss ih =>
    intro fuel hne hlen hq
    obtain ⟨fuel', rfl⟩ : ∃ f, fuel = f + 1 := by
      cases fuel with
      | zero => simp at hlen
      | succ f => exact ⟨f, rfl⟩
    have hqs : '\"' ∉ s := hq s (List.mem_cons_self s ss)
    cases ss with
    | nil =>
      have hshape : encodeItems [s] ++ [']'] = '\"' :: (s ++ '\"' :: [']']) := by
        simp [encodeItems, encodeStr]
      rw [hshape]
      simp [parseItems, parseStr_complete s [']'] hqs]
    | cons s2 ss2 =>
      have hshape : encodeItems (s :: s2 :: ss2) ++ [']']
          = '\"' :: (s ++ '\"' :: (',' :: ' ' :: (encodeItems (s2 :: ss2) ++ [']']))) := by
        simp [encodeItems, encodeStr]
      rw [hshape]
      have hrec := ih fuel' (by simp) (by simp at hlen ⊢; omega)
        (fun x hx => hq x (List.mem_cons_of_mem s hx))
      simp [parseItems,
        parseStr_complete s (',' :: ' ' :: (encodeItems (s2 :: ss2) ++ [']'])) hqs,
        hrec]

/-- C8: saving any schedule whose entries are strings free of JSON escapes
(in particular the ISO-8601 timestamps the program stores) and then loading
yields the same ordered sequence; loading when no persisted schedule file
exists yields the empty sequence. -/
theorem save_load_roundtrip (ts : List (List Char))
    (hq : ∀ s ∈ ts, '\"' ∉ s ∧ '\\' ∉ s) :
    load_commit_times (save_commit_times ts) = some ts ∧
    load_commit_times none = some [] := by
  refine ⟨?_, rfl⟩
  cases ts with
  | nil => rfl
  | cons s ss =>
    have hq' : ∀ x ∈ s :: ss, '\"' ∉ x := fun x hx => (hq x hx).1
    have hlen := encodeItems_length (s :: ss)
    have hne : ¬ (encodeItems (s :: ss) ++ [']'] = [']']) := by
      intro hcon
      have hc := congrArg List.length hcon
      simp only [List.length_append, List.length_cons, List.length_nil] at hc
      simp only [List.length_cons] at hlen
      omega
    show decodeJson (encodeJson (s :: ss)) = some (s :: ss)
    have hd : decodeJson (encodeJson (s :: ss))
        = parseItems ('[' :: (encodeItems (s :: ss) ++ [']'])).length
            (encodeItems (s :: ss) ++ [']']) := by
      simp [decodeJson, encodeJson, hne]
    rw [hd]
    apply parseItems_complete (s :: ss) _ (by simp) ?_ hq'
    simp only [List.length_cons, List.length_append, List.length_nil] at hlen ⊢
    omega

/-- C8 witness. -/
theorem save_load_roundtrip_witness :
    (∀ s ∈ [String.toList "2025-10-12T09:30:00-05:00"], '\"' ∉ s ∧ '\\' ∉ s) ∧
    (load_commit_times (save_commit_times [String.toList "2025-10-12T09:30:00-05:00"])
        = some [String.toList "2025-10-12T09:30:00-05:00"] ∧
      load_commit_times none = some []) :=
  ⟨by decide, save_load_roundtrip [String.toList "2025-10-12T09:30:00-05:00"] (by decide)⟩
